import Mathlib

/-!
Verification development for the GA4GH reference-implementation HTTP client
(ga4gh/client.py) and the simulated variant set exercised by
tests/unit/test_simulator.py.

The client is embedded shallowly: the mutable parts of `HttpClient` (the
byte counter and the diagnostic stream) become an explicit `ClientState`,
the network becomes an oracle `Nat → HttpReply` giving the reply to the
n-th HTTP request of a run, JSON (de)serialization of protocol classes
becomes explicit function parameters (`toJsonString`, `fromJsonString`),
and the generator methods (`runSearchRequest`, `runListRequest`) become
fuel-indexed functions producing a trace of request/yield events.
-/

/-- `requests.codes.ok`: the only HTTP status `_checkStatus` accepts. -/
def codesOk : Nat := 200

/-- The immutable configuration of `HttpClient.__init__` (client.py:24-29):
`urlPrefix`, `debugLevel`, `workarounds` and `key`.  The mutable
`_bytesRead` lives in `ClientState`. -/
structure HttpClient where
  urlPrefix : String
  debugLevel : Nat
  workarounds : List String
  key : String
deriving DecidableEq, Repr

/-- The mutable state of a client: the `_bytesRead` counter and the process
diagnostic stream (stdout), to which debug output and failure bodies are
printed. -/
structure ClientState where
  bytesRead : Nat
  out : List String
deriving DecidableEq, Repr

/-- `HttpClient.workaroundGoogle` (client.py:22). -/
def HttpClient.workaroundGoogle : String := "google"

/-- `HttpClient.getBytesRead` (client.py:31-36). -/
def getBytesRead (s : ClientState) : Nat := s.bytesRead

/-- `HttpClient._usingWorkaroundsFor` (client.py:45-46). -/
def HttpClient.usingWorkaroundsFor (self : HttpClient) (workaround : String) : Bool :=
  self.workarounds.contains workaround

/-- `HttpClient._getAuth` (client.py:39-43). -/
def HttpClient.getAuth (self : HttpClient) : List (String × String) :=
  if self.usingWorkaroundsFor HttpClient.workaroundGoogle then [("key", self.key)] else []

/-- `HttpClient._debugResponse` (client.py:48-55): the lines printed to the
diagnostic stream.  The pretty-printed JSON dump is modelled as emitting the
raw string; the formatting of the dump is irrelevant to every data path. -/
def HttpClient.debugResponse (self : HttpClient) (jsonString : String) : List String :=
  if self.debugLevel > 1 then ["json response:", jsonString] else []

/-- What the transport (`requests.request`) hands back: a status code and the
raw body text. -/
structure HttpReply where
  status : Nat
  text : String
deriving DecidableEq, Repr

/-- The `requests` response object as `_checkStatus` sees it: the url the
request went to, the status code and the body. -/
structure HttpResponse where
  url : String
  status : Nat
  text : String
deriving DecidableEq, Repr

/-- The errors of the client, per the spec's taxonomy: `RequestFailedError`
(the `Exception` of client.py:61, carrying the url and the status code) and
`DeserializationError` (a body that does not parse into the response class). -/
inductive ClientError where
  | requestFailed (url : String) (status : Nat)
  | deserializationFailed (body : String)
deriving DecidableEq, Repr

/-- `HttpClient._checkStatus` (client.py:57-62): fails iff the status code
differs from `requests.codes.ok`; the raised error carries the response's url
and status code.  (The print of the body is modelled at the `doRequest`
level, where the error propagates.) -/
def checkStatus (response : HttpResponse) : Option ClientError :=
  if response.status ≠ codesOk then
    some (.requestFailed response.url response.status)
  else none

/-- `HttpClient._updateBytesRead` (client.py:64-65). -/
def updateBytesRead (s : ClientState) (jsonString : String) : ClientState :=
  { s with bytesRead := s.bytesRead + jsonString.length }

/-- `HttpClient._deserializeResponse` (client.py:67-73): reads the body text,
adds its length to the byte counter, emits the debug output, then attempts
`protocolResponseClass.fromJsonString` (the `fromJsonString` parameter;
`none` models a raised deserialization error). -/
def deserializeResponse {β : Type} (self : HttpClient) (fromJsonString : String → Option β)
    (s : ClientState) (response : HttpResponse) : ClientState × Option β :=
  let jsonResponseString := response.text
  let s1 := updateBytesRead s jsonResponseString
  let s2 := { s1 with out := s1.out ++ self.debugResponse jsonResponseString }
  (s2, fromJsonString jsonResponseString)

/-- One HTTP request as issued by `_doRequest`: method, url, query
parameters, headers and the optional body. -/
structure HttpRequestRecord where
  method : String
  url : String
  params : List (String × String)
  headers : List (String × String)
  data : Option String
deriving DecidableEq, Repr

/-- `HttpClient._doRequest` (client.py:83-96): builds headers and parameters
(auth first, then the call's parameters, mirroring `dict.update`), issues the
request (whose reply the oracle supplies), checks the status and
deserializes.  Returns the request that went out, the new state, and either
the response object or the error raised. -/
def doRequest {β : Type} (self : HttpClient) (fromJsonString : String → Option β)
    (s : ClientState) (httpMethod : String) (url : String)
    (httpParams : List (String × String)) (httpData : Option String)
    (reply : HttpReply) : HttpRequestRecord × ClientState × Except ClientError β :=
  let headers := if httpData.isSome then [("Content-type", "application/json")] else []
  let params := self.getAuth ++ httpParams
  let req : HttpRequestRecord := ⟨httpMethod, url, params, headers, httpData⟩
  let response : HttpResponse := ⟨url, reply.status, reply.text⟩
  match checkStatus response with
  | some e => (req, { s with out := s.out ++ [response.text] }, .error e)
  | none =>
    match deserializeResponse self fromJsonString s response with
    | (s2, some responseObject) => (req, s2, .ok responseObject)
    | (s2, none) => (req, s2, .error (.deserializationFailed response.text))

/-- A protocol request object, reduced to the one field the client mutates:
`pageToken` (`None` or a string). -/
structure ProtocolRequest where
  pageToken : Option String
deriving DecidableEq, Repr

/-- A deserialized protocol response as the pagination loop sees it: the
designated list attribute's elements, and the `nextPageToken` attribute —
`none` when the schema defines no such attribute at all, `some none` when it
is present and null, `some (some t)` when it holds token `t`. -/
structure ResponseObject (α : Type) where
  listAttr : List α
  nextPageToken : Option (Option String)
deriving DecidableEq, Repr

/-- `HttpClient._updateNotDone` (client.py:75-81): when the response has a
`nextPageToken` attribute its value is copied into the request's `pageToken`
and the loop continues iff that value is not null; when the attribute is
absent the request is untouched and the loop ends. -/
def updateNotDone {α : Type} (responseObject : ResponseObject α)
    (protocolRequest : ProtocolRequest) : ProtocolRequest × Bool :=
  match responseObject.nextPageToken with
  | some tok => ({ protocolRequest with pageToken := tok }, tok.isSome)
  | none => (protocolRequest, false)

/-- Whether a response makes the pagination loop continue: its
`nextPageToken` attribute is present and non-null. -/
def continuesPaging {α : Type} (responseObject : ResponseObject α) : Bool :=
  match responseObject.nextPageToken with
  | some tok => tok.isSome
  | none => false

/-- One observable event of a paginated run: an HTTP request going out, or an
element yielded to the caller. -/
inductive Event (α : Type) where
  | request (r : HttpRequestRecord)
  | yield (a : α)
deriving DecidableEq, Repr

/-- How a paginated run ended: normally, with a raised error, or with the
fuel bound exhausted while the loop still wanted another page. -/
inductive Outcome where
  | ok
  | error (e : ClientError)
  | fuelOut
deriving DecidableEq, Repr

/-- The result of a paginated run: its event trace, the final client state
and how it ended. -/
structure RunResult (α : Type) where
  trace : List (Event α)
  state : ClientState
  outcome : Outcome
deriving DecidableEq, Repr

/-- The elements a trace yields to the caller, in order. -/
def yieldsOf {α : Type} (tr : List (Event α)) : List α :=
  tr.filterMap fun e => match e with
    | .yield a => some a
    | .request _ => none

/-- The number of HTTP requests a trace contains. -/
def requestCount {α : Type} (tr : List (Event α)) : Nat :=
  (tr.filter fun e => match e with
    | .request _ => true
    | .yield _ => false).length

/-- `posixpath.join` for the two-argument calls of client.py: an absolute
second component replaces the first; otherwise the two are glued, inserting
"/" unless the first is empty or already ends in "/".  The `startswith` /
`endswith` checks are carried out on the character list of the strings. -/
def posixJoin (a b : String) : String :=
  if b.data.head? = some '/' then b
  else if a.data = [] ∨ a.data.getLast? = some '/' then a ++ b
  else a ++ "/" ++ b

/-- Scan to the first closing brace of a format field: the field name before
it and the remainder after it.  Helper for the model of `str.format`. -/
def splitAtBrace : List Char → Option (List Char × List Char)
  | [] => none
  | c :: rest =>
    if c = '\x7d' then some ([], rest)
    else
      match splitAtBrace rest with
      | some (f, r) => some (c :: f, r)
      | none => none

/-- Model of Python `str.format` restricted to the keyword arguments
client.py passes (`objectName` and `id`, each absent for calls that do not
supply them): doubled braces are escapes, a field named by a supplied
keyword is substituted (the inserted value is not rescanned), and any other
field, an unbalanced brace, or a field for an absent keyword is a format
error (`none`).  The fuel argument is called with the list's length and only
bounds the recursion. -/
def pyFormatGo (objectName id_ : Option String) : Nat → List Char → Option (List Char)
  | _, [] => some []
  | 0, _ :: _ => none
  | fuel + 1, c :: rest =>
    if c = '\x7b' then
      match rest with
      | [] => none
      | c2 :: rest2 =>
        if c2 = '\x7b' then (pyFormatGo objectName id_ fuel rest2).map (fun t => '\x7b' :: t)
        else
          match splitAtBrace (c2 :: rest2) with
          | none => none
          | some (f, r) =>
            if f = "objectName".data then
              match objectName with
              | some v => (pyFormatGo objectName id_ fuel r).map (fun t => v.data ++ t)
              | none => none
            else if f = "id".data then
              match id_ with
              | some v => (pyFormatGo objectName id_ fuel r).map (fun t => v.data ++ t)
              | none => none
            else none
    else if c = '\x7d' then
      match rest with
      | [] => none
      | c2 :: rest2 =>
        if c2 = '\x7d' then (pyFormatGo objectName id_ fuel rest2).map (fun t => '\x7d' :: t)
        else none
    else (pyFormatGo objectName id_ fuel rest).map (fun t => c :: t)

/-- `template.format(objectName=..., id=...)` with either keyword possibly
absent: `none` models a raised formatting error. -/
def pyFormat (template : String) (objectName id_ : Option String) : Option String :=
  (pyFormatGo objectName id_ template.data.length template.data).map String.mk

/-- Everything `runSearchRequest` closes over beside its explicit arguments:
the client, the protocol request's serializer (`toJsonString`), the response
class's parser (`fromJsonString`) and the transport oracle (`server n` is
the reply the n-th HTTP request of the run receives). -/
structure SearchContext (α : Type) where
  client : HttpClient
  toJsonString : ProtocolRequest → String
  fromJsonString : String → Option (ResponseObject α)
  server : Nat → HttpReply

/-- The loop of `HttpClient.runSearchRequest` (client.py:106-114), indexed by
fuel: serialize the request, POST it, yield every element of the designated
list attribute, then `_updateNotDone` decides whether to go round again.
`n` counts the HTTP requests already issued by this run. -/
def runSearchAux {α : Type} (ctx : SearchContext α) (fullUrl : String) :
    Nat → ProtocolRequest → Nat → ClientState → RunResult α
  | 0, _, _, s => ⟨[], s, .fuelOut⟩
  | fuel + 1, protocolRequest, n, s =>
    let data := ctx.toJsonString protocolRequest
    match doRequest ctx.client ctx.fromJsonString s "POST" fullUrl [] (some data)
        (ctx.server n) with
    | (req, s1, .error e) => ⟨[.request req], s1, .error e⟩
    | (req, s1, .ok responseObject) =>
      let pageEvents := responseObject.listAttr.map Event.yield
      let upd := updateNotDone responseObject protocolRequest
      if upd.2 then
        let rest := runSearchAux ctx fullUrl fuel upd.1 (n + 1) s1
        ⟨.request req :: pageEvents ++ rest.trace, rest.state, rest.outcome⟩
      else
        ⟨.request req :: pageEvents, s1, .ok⟩

/-- `HttpClient.runSearchRequest` (client.py:98-114): the url is the prefix
joined with `objectName + "/search"`, and the loop starts from the caller's
request object with no requests issued yet. -/
def runSearchRequest {α : Type} (ctx : SearchContext α) (protocolRequest : ProtocolRequest)
    (objectName : String) (fuel : Nat) (s : ClientState) : RunResult α :=
  let fullUrl := posixJoin ctx.client.urlPrefix (objectName ++ "/search")
  runSearchAux ctx fullUrl fuel protocolRequest 0 s

/-- Everything `runListRequest` closes over beside its explicit arguments:
the client, the request's flat serialization (`toJsonDict`), the response
parser and the transport oracle. -/
structure ListContext (α : Type) where
  client : HttpClient
  toJsonDict : ProtocolRequest → List (String × String)
  fromJsonString : String → Option (ResponseObject α)
  server : Nat → HttpReply

/-- The loop of `HttpClient.runListRequest` (client.py:123-129): a GET with
the request serialized to query parameters, yielding one whole response
object per page, with the same `_updateNotDone` pagination. -/
def runListAux {α : Type} (ctx : ListContext α) (fullUrl : String) :
    Nat → ProtocolRequest → Nat → ClientState → RunResult (ResponseObject α)
  | 0, _, _, s => ⟨[], s, .fuelOut⟩
  | fuel + 1, protocolRequest, n, s =>
    let requestDict := ctx.toJsonDict protocolRequest
    match doRequest ctx.client ctx.fromJsonString s "GET" fullUrl requestDict none
        (ctx.server n) with
    | (req, s1, .error e) => ⟨[.request req], s1, .error e⟩
    | (req, s1, .ok responseObject) =>
      let upd := updateNotDone responseObject protocolRequest
      if upd.2 then
        let rest := runListAux ctx fullUrl fuel upd.1 (n + 1) s1
        ⟨.request req :: .yield responseObject :: rest.trace, rest.state, rest.outcome⟩
      else
        ⟨[.request req, .yield responseObject], s1, .ok⟩

/-- `HttpClient.runListRequest` (client.py:116-129): the url template is
joined to the prefix and `{id}` is substituted; `none` models the formatting
error `str.format` would raise on a malformed template. -/
def runListRequest {α : Type} (ctx : ListContext α) (protocolRequest : ProtocolRequest)
    (url : String) (id_ : String) (fuel : Nat) (s : ClientState) :
    Option (RunResult (ResponseObject α)) :=
  match pyFormat (posixJoin ctx.client.urlPrefix url) none (some id_) with
  | none => none
  | some fullUrl => some (runListAux ctx fullUrl fuel protocolRequest 0 s)

/-- `HttpClient.runGetRequest` (client.py:131-140): one GET against the
prefix joined with the template `"\x7bobjectName\x7d/\x7bid\x7d"`, formatted
with the resource name and the identifier, with no body and no
call-supplied query parameters.  Exactly one `doRequest` is performed —
there is no loop.  `none` models a formatting error. -/
def runGetRequest {β : Type} (self : HttpClient) (fromJsonString : String → Option β)
    (objectName : String) (id_ : String) (reply : HttpReply) (s : ClientState) :
    Option (HttpRequestRecord × ClientState × Except ClientError β) :=
  let url := "\x7bobjectName\x7d/\x7bid\x7d"
  match pyFormat (posixJoin self.urlPrefix url) (some objectName) (some id_) with
  | none => none
  | some fullUrl => some (doRequest self fromJsonString s "GET" fullUrl [] none reply)

/-- Modelled from the spec: `ga4gh.datamodel.variants.SimulatedVariantSet`
is not among the repository's files (only its unit tests under
tests/unit/test_simulator.py are), so this follows spec section 4.6: a
simulator constructed from a variant set id, a random seed, a per-record
call count and a variant density. -/
structure SimulatedVariantSet where
  variantSetId : String
  randomSeed : Nat
  numCalls : Nat
  variantDensity : Nat
deriving DecidableEq, Repr

/-- Modelled from the spec: one call of a synthetic variant record. -/
structure Call where
  callSetId : String
  genotype : List Nat
deriving DecidableEq, Repr

/-- Modelled from the spec: a synthetic variant record with the fields the
tests inspect.  `end_` stands for the source's `end` attribute. -/
structure Variant where
  id : String
  variantSetId : String
  referenceName : String
  start : Nat
  end_ : Nat
  referenceBases : String
  alternateBases : List String
  created : Nat
  updated : Nat
  calls : List Call
deriving DecidableEq, Repr

/-- The fixed 4-symbol alphabet the simulator draws bases from. -/
def simulatorBases : List String := ["A", "C", "G", "T"]

/-- Modelled from the spec: a deterministic pseudo-random draw in `0..3`
derived from the seed, the base position and a salt distinguishing the
fields drawn for one record. -/
def simulatorDraw (seed pos salt : Nat) : Nat :=
  (seed + 31 * pos + 17 * salt) % 4

/-- Modelled from the spec: the synthetic variant record for one base
position.  Its identifier is the deterministic composite of the variant set
id, the reference name and the start position; reference and alternate
bases are drawn from the fixed alphabet; the record carries exactly
`numCalls` calls; `created` and `updated` are both set to the wall clock
`now` sampled when the record is built. -/
def generateSimulatedVariant (vs : SimulatedVariantSet) (referenceName : String)
    (pos : Nat) (now : Nat) : Variant :=
  { id := vs.variantSetId ++ ":" ++ referenceName ++ ":" ++ toString pos
    variantSetId := vs.variantSetId
    referenceName := referenceName
    start := pos
    end_ := pos + 1
    referenceBases := simulatorBases.getD (simulatorDraw vs.randomSeed pos 0) "A"
    alternateBases := [simulatorBases.getD (simulatorDraw vs.randomSeed pos 1) "A"]
    created := now
    updated := now
    calls := (List.range vs.numCalls).map
      (fun i => ⟨toString i, [simulatorDraw vs.randomSeed pos (2 + i)]⟩) }

/-- Modelled from the spec: `SimulatedVariantSet.getVariants` over the
half-open range `[startPosition, endPosition)` — one record per base
position when the density is at least 1 (densities below 1 are
probabilistic in the reference implementation and outside the spec's
determinism contract, so they are modelled as producing nothing).  `now` is
the wall clock at the query, the only run-to-run varying input. -/
def getVariants (vs : SimulatedVariantSet) (now : Nat) (referenceName : String)
    (startPosition endPosition : Nat) : List Variant :=
  if 1 ≤ vs.variantDensity then
    (List.range' startPosition (endPosition - startPosition)).map
      (fun pos => generateSimulatedVariant vs referenceName pos now)
  else []

/-- The timestamp scrub of `_assertEqualVariantLists`
(test_simulator.py:111-119): both time-dependent fields set to 0 before
comparison. -/
def scrubTimes (v : Variant) : Variant :=
  { v with created := 0, updated := 0 }

/-- The request record one search-loop iteration sends: a POST to the search
url, auth parameters only, a JSON content-type header, and the serialized
request object as body. -/
def searchRequestRecord (client : HttpClient) (toJsonString : ProtocolRequest → String)
    (fullUrl : String) (protocolRequest : ProtocolRequest) : HttpRequestRecord :=
  ⟨"POST", fullUrl, client.getAuth, [("Content-type", "application/json")],
   some (toJsonString protocolRequest)⟩

/-- The trace `runSearchAux` produces over the pages `n, n+1, ..., n+k` when
every reply in that window has status 200 and parses, the first `k` of those
pages carry a non-null continuation token and page `n+k` ends the sequence:
for each page, its request event followed by its elements, the request
object's token having been carried forward by `_updateNotDone`. -/
def expectedSearchTrace {α : Type} (client : HttpClient)
    (toJsonString : ProtocolRequest → String) (fullUrl : String)
    (pages : Nat → ResponseObject α) :
    Nat → ProtocolRequest → Nat → List (Event α)
  | n, req, 0 =>
    .request (searchRequestRecord client toJsonString fullUrl req)
      :: (pages n).listAttr.map .yield
  | n, req, k + 1 =>
    (.request (searchRequestRecord client toJsonString fullUrl req)
      :: (pages n).listAttr.map .yield)
      ++ expectedSearchTrace client toJsonString fullUrl pages (n + 1)
          (updateNotDone (pages n) req).1 k

/-- The trace `runSearchAux` produces when pages `n, ..., n+k-1` succeed and
carry continuation tokens and the (n+k)-th HTTP request fails: the `k`
complete pages, then the final request event with nothing yielded after it. -/
def failSearchTrace {α : Type} (client : HttpClient)
    (toJsonString : ProtocolRequest → String) (fullUrl : String)
    (pages : Nat → ResponseObject α) :
    Nat → ProtocolRequest → Nat → List (Event α)
  | n, req, 0 => [.request (searchRequestRecord client toJsonString fullUrl req)]
  | n, req, k + 1 =>
    (.request (searchRequestRecord client toJsonString fullUrl req)
      :: (pages n).listAttr.map .yield)
      ++ failSearchTrace client toJsonString fullUrl pages (n + 1)
          (updateNotDone (pages n) req).1 k

/-- A concrete client used by the witnesses. -/
def clientW : HttpClient := ⟨"http://example.com/v1", 0, [], "secret"⟩

/-- Witness page 0: two elements, continuation token "abc". -/
def pageW0 : ResponseObject Nat := ⟨[1, 2], some (some "abc")⟩

/-- Witness page 1 with a present-but-null continuation token. -/
def pageW1 : ResponseObject Nat := ⟨[3], some none⟩

/-- Witness page 1 with no continuation-token attribute at all. -/
def pageW1A : ResponseObject Nat := ⟨[3], none⟩

/-- A witness transport: page body "p0" then "p1", always status 200. -/
def serverW : Nat → HttpReply := fun n => ⟨200, if n = 0 then "p0" else "p1"⟩

/-- A witness transport whose second reply fails with status 404. -/
def serverFailW : Nat → HttpReply :=
  fun n => if n = 0 then ⟨200, "p0"⟩ else ⟨404, "not found"⟩

/-- Witness parser for the null-token page stream. -/
def fromJsonW : String → Option (ResponseObject Nat) :=
  fun t => if t = "p0" then some pageW0 else some pageW1

/-- Witness parser for the absent-token page stream. -/
def fromJsonWA : String → Option (ResponseObject Nat) :=
  fun t => if t = "p0" then some pageW0 else some pageW1A

/-- The witness page stream with the null token ending it. -/
def pagesW : Nat → ResponseObject Nat := fun n => if n = 0 then pageW0 else pageW1

/-- The witness page stream with the absent token ending it. -/
def pagesWA : Nat → ResponseObject Nat := fun n => if n = 0 then pageW0 else pageW1A

/-- Witness request serializer. -/
def toJsonStringW : ProtocolRequest → String := fun req => req.pageToken.getD "null"

/-- Witness request flat serializer. -/
def toJsonDictW : ProtocolRequest → List (String × String) :=
  fun req => [("pageToken", req.pageToken.getD "")]

/-- Witness search context over the null-token stream. -/
def ctxW : SearchContext Nat := ⟨clientW, toJsonStringW, fromJsonW, serverW⟩

/-- Witness search context over the absent-token stream. -/
def ctxWA : SearchContext Nat := ⟨clientW, toJsonStringW, fromJsonWA, serverW⟩

/-- Witness search context over the failing transport. -/
def ctxFailW : SearchContext Nat := ⟨clientW, toJsonStringW, fromJsonW, serverFailW⟩

/-- Witness list context. -/
def ctxLW : ListContext Nat := ⟨clientW, toJsonDictW, fromJsonW, serverW⟩

/-- Witness protocol request (no initial page token). -/
def reqW : ProtocolRequest := ⟨none⟩

/-- Witness starting client state. -/
def sW : ClientState := ⟨0, []⟩

theorem updateNotDone_snd {α : Type} (responseObject : ResponseObject α)
    (protocolRequest : ProtocolRequest) :
    (updateNotDone responseObject protocolRequest).2 = continuesPaging responseObject := by
  cases h : responseObject.nextPageToken <;> simp [updateNotDone, continuesPaging, h]

theorem yieldsOf_append {α : Type} (t₁ t₂ : List (Event α)) :
    yieldsOf (t₁ ++ t₂) = yieldsOf t₁ ++ yieldsOf t₂ := by
  simp [yieldsOf]

theorem requestCount_append {α : Type} (t₁ t₂ : List (Event α)) :
    requestCount (t₁ ++ t₂) = requestCount t₁ + requestCount t₂ := by
  simp [requestCount]

theorem doRequest_ok {β : Type} (self : HttpClient) (fromJsonString : String → Option β)
    (s : ClientState) (httpMethod url : String) (httpParams : List (String × String))
    (httpData : Option String) (reply : HttpReply) (b : β)
    (hst : reply.status = codesOk) (hparse : fromJsonString reply.text = some b) :
    doRequest self fromJsonString s httpMethod url httpParams httpData reply =
      (⟨httpMethod, url, self.getAuth ++ httpParams,
        if httpData.isSome then [("Content-type", "application/json")] else [], httpData⟩,
       ⟨s.bytesRead + reply.text.length, s.out ++ self.debugResponse reply.text⟩,
       .ok b) := by
  simp [doRequest, checkStatus, hst, deserializeResponse, updateBytesRead, hparse]

theorem doRequest_failStatus {β : Type} (self : HttpClient) (fromJsonString : String → Option β)
    (s : ClientState) (httpMethod url : String) (httpParams : List (String × String))
    (httpData : Option String) (reply : HttpReply)
    (hst : reply.status ≠ codesOk) :
    doRequest self fromJsonString s httpMethod url httpParams httpData reply =
      (⟨httpMethod, url, self.getAuth ++ httpParams,
        if httpData.isSome then [("Content-type", "application/json")] else [], httpData⟩,
       ⟨s.bytesRead, s.out ++ [reply.text]⟩,
       .error (.requestFailed url reply.status)) := by
  simp [doRequest, checkStatus, hst]

theorem doRequest_failParse {β : Type} (self : HttpClient) (fromJsonString : String → Option β)
    (s : ClientState) (httpMethod url : String) (httpParams : List (String × String))
    (httpData : Option String) (reply : HttpReply)
    (hst : reply.status = codesOk) (hparse : fromJsonString reply.text = none) :
    doRequest self fromJsonString s httpMethod url httpParams httpData reply =
      (⟨httpMethod, url, self.getAuth ++ httpParams,
        if httpData.isSome then [("Content-type", "application/json")] else [], httpData⟩,
       ⟨s.bytesRead + reply.text.length, s.out ++ self.debugResponse reply.text⟩,
       .error (.deserializationFailed reply.text)) := by
  simp [doRequest, checkStatus, hst, deserializeResponse, updateBytesRead, hparse]

theorem yieldsOf_request_cons {α : Type} (r : HttpRequestRecord) (tr : List (Event α)) :
    yieldsOf (.request r :: tr) = yieldsOf tr := by
  simp [yieldsOf]

theorem yieldsOf_map_yield {α : Type} (l : List α) :
    yieldsOf (l.map Event.yield) = l := by
  induction l with
  | nil => rfl
  | cons a l ih => simpa [yieldsOf] using ih

theorem requestCount_request_cons {α : Type} (r : HttpRequestRecord) (tr : List (Event α)) :
    requestCount (.request r :: tr) = requestCount tr + 1 := by
  simp [requestCount, List.filter_cons, Nat.add_comm]

theorem requestCount_map_yield {α : Type} (l : List α) :
    requestCount (l.map Event.yield) = 0 := by
  simp [requestCount, List.filter_map, Function.comp]

theorem join_map_range_succ {γ : Type} (f : Nat → List γ) (k : Nat) :
    ((List.range (k + 1)).map f).flatten =
      f 0 ++ ((List.range k).map (fun i => f (i + 1))).flatten := by
  rw [List.range_succ_eq_map]
  simp only [List.map_cons, List.map_map, List.flatten_cons]
  rfl

theorem yieldsOf_expectedSearchTrace {α : Type} (client : HttpClient)
    (toJsonString : ProtocolRequest → String) (fullUrl : String)
    (pages : Nat → ResponseObject α) (k : Nat) :
    ∀ (n : Nat) (req : ProtocolRequest),
      yieldsOf (expectedSearchTrace client toJsonString fullUrl pages n req k) =
        ((List.range (k + 1)).map (fun i => (pages (n + i)).listAttr)).flatten := by
  induction k with
  | zero =>
    intro n req
    rw [expectedSearchTrace, yieldsOf_request_cons, yieldsOf_map_yield]
    simp [List.range_succ]
  | succ k ih =>
    intro n req
    rw [expectedSearchTrace, yieldsOf_append, ih,
      join_map_range_succ (fun i => (pages (n + i)).listAttr) (k + 1)]
    have hsh : (fun i => (pages (n + (i + 1))).listAttr)
        = (fun i => (pages (n + 1 + i)).listAttr) := by
      funext i
      rw [show n + (i + 1) = n + 1 + i by omega]
    rw [hsh]
    simp [yieldsOf_request_cons, yieldsOf_map_yield]

theorem requestCount_expectedSearchTrace {α : Type} (client : HttpClient)
    (toJsonString : ProtocolRequest → String) (fullUrl : String)
    (pages : Nat → ResponseObject α) (k : Nat) :
    ∀ (n : Nat) (req : ProtocolRequest),
      requestCount (expectedSearchTrace client toJsonString fullUrl pages n req k) = k + 1 := by
  induction k with
  | zero =>
    intro n req
    rw [expectedSearchTrace, requestCount_request_cons, requestCount_map_yield]
  | succ k ih =>
    intro n req
    rw [expectedSearchTrace, requestCount_append, ih]
    rw [show (Event.request (searchRequestRecord client toJsonString fullUrl req)
        :: (pages n).listAttr.map .yield : List (Event α))
      = .request (searchRequestRecord client toJsonString fullUrl req)
        :: (pages n).listAttr.map .yield from rfl]
    rw [requestCount_request_cons, requestCount_map_yield]
    omega

theorem sum_map_range_succ (f : Nat → Nat) (k : Nat) :
    ((List.range (k + 1)).map f).sum =
      f 0 + ((List.range k).map (fun i => f (i + 1))).sum := by
  rw [List.range_succ_eq_map]
  simp only [List.map_cons, List.map_map, List.sum_cons]
  rfl

/-- The central success lemma: when the replies to requests `n..n+k` all
have status 200 and parse to `pages n..n+k`, the first `k` of those pages
carry non-null continuation tokens and page `n+k` does not, then
`runSearchAux` with more than `k` fuel produces exactly the expected
page-by-page trace, ends normally, and adds exactly the total length of the
`k+1` bodies to the byte counter. -/
theorem runSearchAux_success {α : Type} (ctx : SearchContext α) (fullUrl : String)
    (pages : Nat → ResponseObject α) (k : Nat) :
    ∀ (n : Nat) (req : ProtocolRequest) (s : ClientState) (fuel : Nat),
      k < fuel →
      (∀ i, i ≤ k → (ctx.server (n + i)).status = codesOk) →
      (∀ i, i ≤ k → ctx.fromJsonString (ctx.server (n + i)).text = some (pages (n + i))) →
      (∀ i, i < k → continuesPaging (pages (n + i)) = true) →
      continuesPaging (pages (n + k)) = false →
      ∃ finalOut : List String,
        runSearchAux ctx fullUrl fuel req n s =
          ⟨expectedSearchTrace ctx.client ctx.toJsonString fullUrl pages n req k,
           ⟨s.bytesRead + ((List.range (k + 1)).map
              (fun i => (ctx.server (n + i)).text.length)).sum, finalOut⟩,
           .ok⟩ := by
  induction k with
  | zero =>
    intro n req s fuel hfuel hst hparse _ hterm
    obtain ⟨fuel, rfl⟩ : ∃ f, fuel = f + 1 := ⟨fuel - 1, by omega⟩
    refine ⟨s.out ++ ctx.client.debugResponse (ctx.server n).text, ?_⟩
    simp only [runSearchAux]
    rw [doRequest_ok ctx.client ctx.fromJsonString s "POST" fullUrl []
      (some (ctx.toJsonString req)) (ctx.server n) (pages n)
      (by simpa using hst 0 (Nat.le_refl 0)) (by simpa using hparse 0 (Nat.le_refl 0))]
    have hnd : (updateNotDone (pages n) req).2 = false := by
      rw [updateNotDone_snd]
      simpa using hterm
    simp [hnd, expectedSearchTrace, searchRequestRecord, List.range_succ]
  | succ k ih =>
    intro n req s fuel hfuel hst hparse hcont hterm
    obtain ⟨fuel, rfl⟩ : ∃ f, fuel = f + 1 := ⟨fuel - 1, by omega⟩
    have hst0 : (ctx.server n).status = codesOk := by simpa using hst 0 (by omega)
    have hparse0 : ctx.fromJsonString (ctx.server n).text = some (pages n) := by
      simpa using hparse 0 (by omega)
    have hc0 : continuesPaging (pages n) = true := by simpa using hcont 0 (by omega)
    have hshift : ∀ i : Nat, n + (i + 1) = n + 1 + i := by omega
    obtain ⟨finalOut, hrest⟩ :=
      ih (n + 1) (updateNotDone (pages n) req).1
        ⟨s.bytesRead + (ctx.server n).text.length,
         s.out ++ ctx.client.debugResponse (ctx.server n).text⟩ fuel
        (by omega)
        (fun i hi => by rw [← hshift i]; exact hst (i + 1) (by omega))
        (fun i hi => by rw [← hshift i]; exact hparse (i + 1) (by omega))
        (fun i hi => by rw [← hshift i]; exact hcont (i + 1) (by omega))
        (by rw [← hshift k]; exact hterm)
    refine ⟨finalOut, ?_⟩
    simp only [runSearchAux]
    rw [doRequest_ok ctx.client ctx.fromJsonString s "POST" fullUrl []
      (some (ctx.toJsonString req)) (ctx.server n) (pages n) hst0 hparse0]
    have hnd : (updateNotDone (pages n) req).2 = true := by
      rw [updateNotDone_snd]; exact hc0
    simp only [hnd, if_true, hrest]
    rw [expectedSearchTrace]
    congr 1
    · simp [searchRequestRecord]
    · simp only [ClientState.mk.injEq]
      refine ⟨?_, trivial⟩
      rw [sum_map_range_succ (fun i => (ctx.server (n + i)).text.length) (k + 1)]
      have h2 : (fun i => (ctx.server (n + (i + 1))).text.length)
          = (fun i => (ctx.server (n + 1 + i)).text.length) := by
        funext i
        rw [hshift i]
      simp only [h2]
      simp [Nat.add_assoc]

/-- The failure lemma: when the replies to requests `n..n+k-1` succeed and
their pages all carry non-null continuation tokens, and the reply to request
`n+k` has a non-ok status, the run stops with a `RequestFailedError`
carrying the url and that status; the trace holds exactly the `k` complete
pages and the final request event, and only the `k` successful bodies were
counted. -/
theorem runSearchAux_failStatus {α : Type} (ctx : SearchContext α) (fullUrl : String)
    (pages : Nat → ResponseObject α) (k : Nat) :
    ∀ (n : Nat) (req : ProtocolRequest) (s : ClientState) (fuel : Nat),
      k < fuel →
      (∀ i, i < k → (ctx.server (n + i)).status = codesOk) →
      (∀ i, i < k → ctx.fromJsonString (ctx.server (n + i)).text = some (pages (n + i))) →
      (∀ i, i < k → continuesPaging (pages (n + i)) = true) →
      (ctx.server (n + k)).status ≠ codesOk →
      ∃ finalOut : List String,
        runSearchAux ctx fullUrl fuel req n s =
          ⟨failSearchTrace ctx.client ctx.toJsonString fullUrl pages n req k,
           ⟨s.bytesRead + ((List.range k).map
              (fun i => (ctx.server (n + i)).text.length)).sum, finalOut⟩,
           .error (.requestFailed fullUrl (ctx.server (n + k)).status)⟩ := by
  induction k with
  | zero =>
    intro n req s fuel hfuel _ _ _ hbad
    obtain ⟨fuel, rfl⟩ : ∃ f, fuel = f + 1 := ⟨fuel - 1, by omega⟩
    refine ⟨s.out ++ [(ctx.server n).text], ?_⟩
    simp only [runSearchAux]
    rw [doRequest_failStatus ctx.client ctx.fromJsonString s "POST" fullUrl []
      (some (ctx.toJsonString req)) (ctx.server n) (by simpa using hbad)]
    simp [failSearchTrace, searchRequestRecord]
  | succ k ih =>
    intro n req s fuel hfuel hst hparse hcont hbad
    obtain ⟨fuel, rfl⟩ : ∃ f, fuel = f + 1 := ⟨fuel - 1, by omega⟩
    have hst0 : (ctx.server n).status = codesOk := by simpa using hst 0 (by omega)
    have hparse0 : ctx.fromJsonString (ctx.server n).text = some (pages n) := by
      simpa using hparse 0 (by omega)
    have hc0 : continuesPaging (pages n) = true := by simpa using hcont 0 (by omega)
    have hshift : ∀ i : Nat, n + (i + 1) = n + 1 + i := by omega
    obtain ⟨finalOut, hrest⟩ :=
      ih (n + 1) (updateNotDone (pages n) req).1
        ⟨s.bytesRead + (ctx.server n).text.length,
         s.out ++ ctx.client.debugResponse (ctx.server n).text⟩ fuel
        (by omega)
        (fun i hi => by rw [← hshift i]; exact hst (i + 1) (by omega))
        (fun i hi => by rw [← hshift i]; exact hparse (i + 1) (by omega))
        (fun i hi => by rw [← hshift i]; exact hcont (i + 1) (by omega))
        (by rw [← hshift k]; exact hbad)
    refine ⟨finalOut, ?_⟩
    simp only [runSearchAux]
    rw [doRequest_ok ctx.client ctx.fromJsonString s "POST" fullUrl []
      (some (ctx.toJsonString req)) (ctx.server n) (pages n) hst0 hparse0]
    have hnd : (updateNotDone (pages n) req).2 = true := by
      rw [updateNotDone_snd]; exact hc0
    simp only [hnd, if_true, hrest]
    rw [failSearchTrace]
    congr 1
    · simp [searchRequestRecord]
    · simp only [ClientState.mk.injEq]
      refine ⟨?_, trivial⟩
      rw [sum_map_range_succ (fun i => (ctx.server (n + i)).text.length) k]
      have h2 : (fun i => (ctx.server (n + (i + 1))).text.length)
          = (fun i => (ctx.server (n + 1 + i)).text.length) := by
        funext i
        rw [hshift i]
      simp only [h2]
      simp [Nat.add_assoc]
    · rw [hshift k]

/-- When every page of the stream carries a non-null continuation token (and
every reply succeeds and parses), the search loop never finishes: every fuel
bound is exhausted. -/
theorem runSearchAux_fuelOut {α : Type} (ctx : SearchContext α) (fullUrl : String)
    (pages : Nat → ResponseObject α)
    (hst : ∀ m, (ctx.server m).status = codesOk)
    (hparse : ∀ m, ctx.fromJsonString (ctx.server m).text = some (pages m))
    (hcont : ∀ m, continuesPaging (pages m) = true) :
    ∀ (fuel n : Nat) (req : ProtocolRequest) (s : ClientState),
      (runSearchAux ctx fullUrl fuel req n s).outcome = .fuelOut := by
  intro fuel
  induction fuel with
  | zero => intro n req s; rfl
  | succ fuel ih =>
    intro n req s
    simp only [runSearchAux]
    rw [doRequest_ok ctx.client ctx.fromJsonString s "POST" fullUrl []
      (some (ctx.toJsonString req)) (ctx.server n) (pages n) (hst n) (hparse n)]
    have hnd : (updateNotDone (pages n) req).2 = true := by
      rw [updateNotDone_snd]; exact hcont n
    simp only [hnd, if_true]
    exact ih (n + 1) (updateNotDone (pages n) req).1 _

/-- When some page at or after the loop's position ends the pagination (its
continuation token absent or null), the search loop finishes within that
many pages: it never runs out of fuel once the fuel exceeds the distance to
that page. -/
theorem runSearchAux_halts {α : Type} (ctx : SearchContext α) (fullUrl : String)
    (pages : Nat → ResponseObject α)
    (hst : ∀ m, (ctx.server m).status = codesOk)
    (hparse : ∀ m, ctx.fromJsonString (ctx.server m).text = some (pages m)) (k : Nat) :
    ∀ (n : Nat) (req : ProtocolRequest) (s : ClientState) (fuel : Nat),
      k < fuel →
      continuesPaging (pages (n + k)) = false →
      (runSearchAux ctx fullUrl fuel req n s).outcome ≠ .fuelOut := by
  induction k with
  | zero =>
    intro n req s fuel hfuel hterm
    obtain ⟨fuel, rfl⟩ : ∃ f, fuel = f + 1 := ⟨fuel - 1, by omega⟩
    simp only [runSearchAux]
    rw [doRequest_ok ctx.client ctx.fromJsonString s "POST" fullUrl []
      (some (ctx.toJsonString req)) (ctx.server n) (pages n) (hst n) (hparse n)]
    have hnd : (updateNotDone (pages n) req).2 = false := by
      rw [updateNotDone_snd]; simpa using hterm
    simp [hnd]
  | succ k ih =>
    intro n req s fuel hfuel hterm
    obtain ⟨fuel, rfl⟩ : ∃ f, fuel = f + 1 := ⟨fuel - 1, by omega⟩
    simp only [runSearchAux]
    rw [doRequest_ok ctx.client ctx.fromJsonString s "POST" fullUrl []
      (some (ctx.toJsonString req)) (ctx.server n) (pages n) (hst n) (hparse n)]
    cases hc : continuesPaging (pages n) with
    | false =>
      have hnd : (updateNotDone (pages n) req).2 = false := by
        rw [updateNotDone_snd]; exact hc
      simp [hnd]
    | true =>
      have hnd : (updateNotDone (pages n) req).2 = true := by
        rw [updateNotDone_snd]; exact hc
      simp only [hnd, if_true]
      exact ih (n + 1) (updateNotDone (pages n) req).1 _ fuel (by omega)
        (by rw [show n + 1 + k = n + (k + 1) by omega]; exact hterm)

/-- The analogue of `runSearchAux_fuelOut` for the list loop. -/
theorem runListAux_fuelOut {α : Type} (ctx : ListContext α) (fullUrl : String)
    (pages : Nat → ResponseObject α)
    (hst : ∀ m, (ctx.server m).status = codesOk)
    (hparse : ∀ m, ctx.fromJsonString (ctx.server m).text = some (pages m))
    (hcont : ∀ m, continuesPaging (pages m) = true) :
    ∀ (fuel n : Nat) (req : ProtocolRequest) (s : ClientState),
      (runListAux ctx fullUrl fuel req n s).outcome = .fuelOut := by
  intro fuel
  induction fuel with
  | zero => intro n req s; rfl
  | succ fuel ih =>
    intro n req s
    simp only [runListAux]
    rw [doRequest_ok ctx.client ctx.fromJsonString s "GET" fullUrl
      (ctx.toJsonDict req) none (ctx.server n) (pages n) (hst n) (hparse n)]
    have hnd : (updateNotDone (pages n) req).2 = true := by
      rw [updateNotDone_snd]; exact hcont n
    simp only [hnd, if_true]
    exact ih (n + 1) (updateNotDone (pages n) req).1 _

/-- The analogue of `runSearchAux_halts` for the list loop. -/
theorem runListAux_halts {α : Type} (ctx : ListContext α) (fullUrl : String)
    (pages : Nat → ResponseObject α)
    (hst : ∀ m, (ctx.server m).status = codesOk)
    (hparse : ∀ m, ctx.fromJsonString (ctx.server m).text = some (pages m)) (k : Nat) :
    ∀ (n : Nat) (req : ProtocolRequest) (s : ClientState) (fuel : Nat),
      k < fuel →
      continuesPaging (pages (n + k)) = false →
      (runListAux ctx fullUrl fuel req n s).outcome ≠ .fuelOut := by
  induction k with
  | zero =>
    intro n req s fuel hfuel hterm
    obtain ⟨fuel, rfl⟩ : ∃ f, fuel = f + 1 := ⟨fuel - 1, by omega⟩
    simp only [runListAux]
    rw [doRequest_ok ctx.client ctx.fromJsonString s "GET" fullUrl
      (ctx.toJsonDict req) none (ctx.server n) (pages n) (hst n) (hparse n)]
    have hnd : (updateNotDone (pages n) req).2 = false := by
      rw [updateNotDone_snd]; simpa using hterm
    simp [hnd]
  | succ k ih =>
    intro n req s fuel hfuel hterm
    obtain ⟨fuel, rfl⟩ : ∃ f, fuel = f + 1 := ⟨fuel - 1, by omega⟩
    simp only [runListAux]
    rw [doRequest_ok ctx.client ctx.fromJsonString s "GET" fullUrl
      (ctx.toJsonDict req) none (ctx.server n) (pages n) (hst n) (hparse n)]
    cases hc : continuesPaging (pages n) with
    | false =>
      have hnd : (updateNotDone (pages n) req).2 = false := by
        rw [updateNotDone_snd]; exact hc
      simp [hnd]
    | true =>
      have hnd : (updateNotDone (pages n) req).2 = true := by
        rw [updateNotDone_snd]; exact hc
      simp only [hnd, if_true]
      exact ih (n + 1) (updateNotDone (pages n) req).1 _ fuel (by omega)
        (by rw [show n + 1 + k = n + (k + 1) by omega]; exact hterm)

theorem yieldsOf_failSearchTrace {α : Type} (client : HttpClient)
    (toJsonString : ProtocolRequest → String) (fullUrl : String)
    (pages : Nat → ResponseObject α) (k : Nat) :
    ∀ (n : Nat) (req : ProtocolRequest),
      yieldsOf (failSearchTrace client toJsonString fullUrl pages n req k) =
        ((List.range k).map (fun i => (pages (n + i)).listAttr)).flatten := by
  induction k with
  | zero =>
    intro n req
    simp [failSearchTrace, yieldsOf]
  | succ k ih =>
    intro n req
    rw [failSearchTrace, yieldsOf_append, ih,
      join_map_range_succ (fun i => (pages (n + i)).listAttr) k]
    have hsh : (fun i => (pages (n + (i + 1))).listAttr)
        = (fun i => (pages (n + 1 + i)).listAttr) := by
      funext i
      rw [show n + (i + 1) = n + 1 + i by omega]
    rw [hsh]
    simp [yieldsOf_request_cons, yieldsOf_map_yield]

theorem pyFormatGo_append_clean (objectName id_ : Option String) (xs : List Char)
    (hx : ∀ ch ∈ xs, ch ≠ '\x7b' ∧ ch ≠ '\x7d') :
    ∀ (fuel : Nat) (ys : List Char),
      pyFormatGo objectName id_ (xs.length + fuel) (xs ++ ys) =
        (pyFormatGo objectName id_ fuel ys).map (fun t => xs ++ t) := by
  induction xs with
  | nil =>
    intro fuel ys
    simp
  | cons c xs ih =>
    intro fuel ys
    have hc := hx c (List.mem_cons_self c xs)
    have hxs : ∀ ch ∈ xs, ch ≠ '\x7b' ∧ ch ≠ '\x7d' :=
      fun ch h => hx ch (List.mem_cons_of_mem c h)
    rw [show (c :: xs).length + fuel = (xs.length + fuel) + 1 from by simp; omega]
    rw [List.cons_append]
    simp only [pyFormatGo]
    rw [if_neg hc.1, if_neg hc.2, ih hxs fuel ys]
    simp only [Option.map_map]
    rfl

theorem pyFormatGo_getTemplate (objectName id_ : String) :
    pyFormatGo (some objectName) (some id_) 17 ("\x7bobjectName\x7d/\x7bid\x7d".data)
      = some (objectName.data ++ '/' :: id_.data) := by
  have h : pyFormatGo (some objectName) (some id_) 17 ("\x7bobjectName\x7d/\x7bid\x7d".data)
      = some (objectName.data ++ '/' :: (id_.data ++ [])) := rfl
  simpa using h

theorem head?_append_of_head? {l m : List Char} {c : Char} (h : l.head? = some c) :
    (l ++ m).head? = some c := by
  cases l with
  | nil => simp at h
  | cons x xs => simpa using h

theorem pyFormat_getUrl (p objectName id_ : String)
    (hp : ∀ ch ∈ p.data, ch ≠ '\x7b' ∧ ch ≠ '\x7d') :
    pyFormat (p ++ "\x7bobjectName\x7d/\x7bid\x7d") (some objectName) (some id_)
      = some (p ++ objectName ++ "/" ++ id_) := by
  unfold pyFormat
  rw [show (p ++ "\x7bobjectName\x7d/\x7bid\x7d").data
      = p.data ++ "\x7bobjectName\x7d/\x7bid\x7d".data from rfl]
  rw [List.length_append]
  rw [show ("\x7bobjectName\x7d/\x7bid\x7d".data).length = 17 by decide]
  rw [pyFormatGo_append_clean (some objectName) (some id_) p.data hp 17
    ("\x7bobjectName\x7d/\x7bid\x7d".data)]
  rw [pyFormatGo_getTemplate]
  simp only [Option.map_map, Option.map_some', Function.comp_apply]
  refine congrArg some (String.ext ?_)
  show p.data ++ (objectName.data ++ '/' :: id_.data)
      = ((p.data ++ objectName.data) ++ '/' :: []) ++ id_.data
  simp [List.append_assoc]

theorem posixJoin_format_get (p objectName id_ : String)
    (hp : ∀ ch ∈ p.data, ch ≠ '\x7b' ∧ ch ≠ '\x7d')
    (hobj : objectName.data.head? ≠ some '/') (hne : objectName.data ≠ []) :
    pyFormat (posixJoin p "\x7bobjectName\x7d/\x7bid\x7d") (some objectName) (some id_)
      = some (posixJoin p (objectName ++ "/" ++ id_)) := by
  have htmpl : ¬ (("\x7bobjectName\x7d/\x7bid\x7d".data).head? = some '/') := by decide
  have hobj2 : ¬ (((objectName ++ "/" ++ id_).data).head? = some '/') := by
    cases hdata : objectName.data with
    | nil => exact absurd hdata hne
    | cons x xs =>
      intro hcontra
      apply hobj
      rw [hdata]
      rw [show (objectName ++ "/" ++ id_).data
          = (objectName.data ++ '/' :: []) ++ id_.data from rfl, hdata] at hcontra
      simpa using hcontra
  unfold posixJoin
  rw [if_neg htmpl, if_neg hobj2]
  by_cases hcase : p.data = [] ∨ p.data.getLast? = some '/'
  · rw [if_pos hcase, if_pos hcase, pyFormat_getUrl p objectName id_ hp]
    simp [String.append_assoc]
  · rw [if_neg hcase, if_neg hcase]
    have hp2 : ∀ ch ∈ (p ++ "/").data, ch ≠ '\x7b' ∧ ch ≠ '\x7d' := by
      intro ch hch
      rw [show (p ++ "/").data = p.data ++ '/' :: [] from rfl] at hch
      rcases List.mem_append.mp hch with h | h
      · exact hp ch h
      · simp at h
        rw [h]
        exact ⟨by decide, by decide⟩
    rw [show p ++ "/" ++ "\x7bobjectName\x7d/\x7bid\x7d"
        = (p ++ "/") ++ "\x7bobjectName\x7d/\x7bid\x7d" from rfl]
    rw [pyFormat_getUrl (p ++ "/") objectName id_ hp2]
    simp [String.append_assoc]

/-- A single `_doRequest` never decreases the byte counter, whatever the
status and however parsing goes. -/
theorem doRequest_bytes_mono {β : Type} (self : HttpClient)
    (fromJsonString : String → Option β) (s : ClientState) (httpMethod url : String)
    (httpParams : List (String × String)) (httpData : Option String) (reply : HttpReply) :
    s.bytesRead ≤
      ((doRequest self fromJsonString s httpMethod url httpParams httpData reply).2.1).bytesRead := by
  by_cases hst : reply.status = codesOk
  · cases hparse : fromJsonString reply.text with
    | none =>
      rw [doRequest_failParse self fromJsonString s httpMethod url httpParams httpData reply
        hst hparse]
      simp
    | some b =>
      rw [doRequest_ok self fromJsonString s httpMethod url httpParams httpData reply b
        hst hparse]
      simp
  · rw [doRequest_failStatus self fromJsonString s httpMethod url httpParams httpData reply hst]

/-- The search loop never decreases the byte counter. -/
theorem runSearchAux_bytes_mono {α : Type} (ctx : SearchContext α) (fullUrl : String) :
    ∀ (fuel n : Nat) (req : ProtocolRequest) (s : ClientState),
      s.bytesRead ≤ (runSearchAux ctx fullUrl fuel req n s).state.bytesRead := by
  intro fuel
  induction fuel with
  | zero => intro n req s; exact Nat.le_refl _
  | succ fuel ih =>
    intro n req s
    have hmono := doRequest_bytes_mono ctx.client ctx.fromJsonString s "POST" fullUrl []
      (some (ctx.toJsonString req)) (ctx.server n)
    simp only [runSearchAux]
    rcases h : doRequest ctx.client ctx.fromJsonString s "POST" fullUrl []
      (some (ctx.toJsonString req)) (ctx.server n) with ⟨req1, s1, res⟩
    rw [h] at hmono
    cases res with
    | error e => exact hmono
    | ok responseObject =>
      cases hnd : (updateNotDone responseObject req).2 with
      | false => simpa [hnd] using hmono
      | true =>
        simp only [hnd, if_true]
        exact Nat.le_trans hmono (ih (n + 1) (updateNotDone responseObject req).1 s1)

/-- The list loop never decreases the byte counter. -/
theorem runListAux_bytes_mono {α : Type} (ctx : ListContext α) (fullUrl : String) :
    ∀ (fuel n : Nat) (req : ProtocolRequest) (s : ClientState),
      s.bytesRead ≤ (runListAux ctx fullUrl fuel req n s).state.bytesRead := by
  intro fuel
  induction fuel with
  | zero => intro n req s; exact Nat.le_refl _
  | succ fuel ih =>
    intro n req s
    have hmono := doRequest_bytes_mono ctx.client ctx.fromJsonString s "GET" fullUrl
      (ctx.toJsonDict req) none (ctx.server n)
    simp only [runListAux]
    rcases h : doRequest ctx.client ctx.fromJsonString s "GET" fullUrl
      (ctx.toJsonDict req) none (ctx.server n) with ⟨req1, s1, res⟩
    rw [h] at hmono
    cases res with
    | error e => exact hmono
    | ok responseObject =>
      cases hnd : (updateNotDone responseObject req).2 with
      | false => simpa [hnd] using hmono
      | true =>
        simp only [hnd, if_true]
        exact Nat.le_trans hmono (ih (n + 1) (updateNotDone responseObject req).1 s1)

/-- The expected trace depends only on the pages the run actually consumes:
the full page objects before the final one (their tokens steer the requests)
and the final page's element list. -/
theorem expectedSearchTrace_congr {α : Type} (client : HttpClient)
    (toJsonString : ProtocolRequest → String) (fullUrl : String)
    (pages pages' : Nat → ResponseObject α) (k : Nat) :
    ∀ (n : Nat) (req : ProtocolRequest),
      (∀ i, i < k → pages (n + i) = pages' (n + i)) →
      (pages (n + k)).listAttr = (pages' (n + k)).listAttr →
      expectedSearchTrace client toJsonString fullUrl pages n req k
        = expectedSearchTrace client toJsonString fullUrl pages' n req k := by
  induction k with
  | zero =>
    intro n req _ hlast
    rw [expectedSearchTrace, expectedSearchTrace]
    simpa using congrArg (fun l => Event.request (α := α)
      (searchRequestRecord client toJsonString fullUrl req) :: l.map Event.yield) hlast
  | succ k ih =>
    intro n req hlt hlast
    have h0 : pages n = pages' n := by simpa using hlt 0 (by omega)
    have hshift : ∀ i : Nat, n + (i + 1) = n + 1 + i := by omega
    rw [expectedSearchTrace, expectedSearchTrace, h0]
    congr 1
    exact ih (n + 1) (updateNotDone (pages' n) req).1
      (fun i hi => by rw [← hshift i]; exact hlt (i + 1) (by omega))
      (by rw [← hshift k]; simpa [hshift k] using hlast)

/-- C5: two simulated variant set generators constructed with identical
seed, call count and density (at least 1), queried with the same reference
name and half-open range, produce record sequences identical in every field
except the created/updated timestamps, and within each record the created
and updated timestamps are equal.  (The generator is modelled from the spec:
its implementation is not among the repository's files.) -/
theorem simulatedVariantSet_deterministic
    (seed numCalls density : Nat) (variantSetId referenceName : String)
    (startPosition endPosition now1 now2 : Nat) (hd : 1 ≤ density) :
    ((getVariants ⟨variantSetId, seed, numCalls, density⟩ now1 referenceName
        startPosition endPosition).map scrubTimes
      = (getVariants ⟨variantSetId, seed, numCalls, density⟩ now2 referenceName
        startPosition endPosition).map scrubTimes)
    ∧ ∀ v ∈ getVariants ⟨variantSetId, seed, numCalls, density⟩ now1 referenceName
        startPosition endPosition, v.created = v.updated := by
  constructor
  · simp [getVariants, hd, scrubTimes, generateSimulatedVariant, List.map_map,
      Function.comp]
  · intro v hv
    rw [getVariants, if_pos hd] at hv
    obtain ⟨pos, _, rfl⟩ := List.mem_map.mp hv
    rfl

theorem simulatedVariantSet_deterministic_witness :
    ((getVariants ⟨"variantSet1", 0, 2, 1⟩ 5 "ref" 100 103).map scrubTimes
      = (getVariants ⟨"variantSet1", 0, 2, 1⟩ 7 "ref" 100 103).map scrubTimes)
    ∧ ∀ v ∈ getVariants ⟨"variantSet1", 0, 2, 1⟩ 5 "ref" 100 103,
        v.created = v.updated :=
  simulatedVariantSet_deterministic 0 2 1 "variantSet1" "ref" 100 103 5 7 (by decide)

/-- C8: with density 1, querying the half-open range
`[startPosition, endPosition)` returns exactly `endPosition - startPosition`
variant records, one per base position of the range.  (The generator is
modelled from the spec: its implementation is not among the repository's
files.) -/
theorem getVariants_count (seed numCalls : Nat) (variantSetId referenceName : String)
    (now startPosition endPosition : Nat) :
    ((getVariants ⟨variantSetId, seed, numCalls, 1⟩ now referenceName
        startPosition endPosition).length = endPosition - startPosition)
    ∧ (getVariants ⟨variantSetId, seed, numCalls, 1⟩ now referenceName
        startPosition endPosition).map Variant.start
      = List.range' startPosition (endPosition - startPosition) := by
  constructor
  · simp [getVariants]
  · simp [getVariants, generateSimulatedVariant, List.map_map, Function.comp_def]

/-- C9: two clients that differ only in their debug level deserialize any
raw response body to equal response objects with equal byte counters — the
verbose dump of `_debugResponse` touches only the diagnostic stream. -/
theorem debugLevel_no_data_effect {β : Type} (self1 self2 : HttpClient)
    (hurl : self1.urlPrefix = self2.urlPrefix)
    (hw : self1.workarounds = self2.workarounds) (hkey : self1.key = self2.key)
    (fromJsonString : String → Option β) (s : ClientState) (response : HttpResponse) :
    (deserializeResponse self1 fromJsonString s response).2
      = (deserializeResponse self2 fromJsonString s response).2
    ∧ ((deserializeResponse self1 fromJsonString s response).1).bytesRead
      = ((deserializeResponse self2 fromJsonString s response).1).bytesRead := by
  constructor <;> simp [deserializeResponse, updateBytesRead]

theorem debugLevel_no_data_effect_witness :
    (deserializeResponse ⟨"http://example.com/v1", 0, [], "secret"⟩
        (fun t => some t.length) ⟨0, []⟩ ⟨"u", 200, "body"⟩).2
      = (deserializeResponse ⟨"http://example.com/v1", 2, [], "secret"⟩
        (fun t => some t.length) ⟨0, []⟩ ⟨"u", 200, "body"⟩).2
    ∧ ((deserializeResponse ⟨"http://example.com/v1", 0, [], "secret"⟩
        (fun t => some t.length) ⟨0, []⟩ ⟨"u", 200, "body"⟩).1).bytesRead
      = ((deserializeResponse ⟨"http://example.com/v1", 2, [], "secret"⟩
        (fun t => some t.length) ⟨0, []⟩ ⟨"u", 200, "body"⟩).1).bytesRead :=
  debugLevel_no_data_effect ⟨"http://example.com/v1", 0, [], "secret"⟩
    ⟨"http://example.com/v1", 2, [], "secret"⟩ rfl rfl rfl
    (fun t => some t.length) ⟨0, []⟩ ⟨"u", 200, "body"⟩

/-- C10: when a response passes the status check but its body fails to
deserialize, the byte counter has already been incremented by that body's
length — `_updateBytesRead` runs before `fromJsonString` is attempted, so a
deserialization failure is not atomic with respect to the bytes-read
state. -/
theorem deserialization_failure_counts_bytes {β : Type} (self : HttpClient)
    (fromJsonString : String → Option β) (s : ClientState) (httpMethod url : String)
    (httpParams : List (String × String)) (httpData : Option String) (reply : HttpReply)
    (hst : reply.status = codesOk) (hparse : fromJsonString reply.text = none) :
    (∃ req : HttpRequestRecord,
      doRequest self fromJsonString s httpMethod url httpParams httpData reply =
        (req, ⟨s.bytesRead + reply.text.length, s.out ++ self.debugResponse reply.text⟩,
         .error (.deserializationFailed reply.text)))
    ∧ ((deserializeResponse self fromJsonString s ⟨url, reply.status, reply.text⟩).1).bytesRead
      = s.bytesRead + reply.text.length := by
  refine ⟨⟨_, doRequest_failParse self fromJsonString s httpMethod url httpParams
    httpData reply hst hparse⟩, ?_⟩
  simp [deserializeResponse, updateBytesRead]

theorem deserialization_failure_counts_bytes_witness :
    (∃ req : HttpRequestRecord,
      doRequest (⟨"http://example.com/v1", 0, [], "secret"⟩ : HttpClient)
        (fun _ => (none : Option Nat)) ⟨3, []⟩ "GET" "http://example.com/v1/references/r1"
        [] none ⟨200, "malformed"⟩ =
        (req, ⟨3 + "malformed".length, [] ++ HttpClient.debugResponse
            ⟨"http://example.com/v1", 0, [], "secret"⟩ "malformed"⟩,
         .error (.deserializationFailed "malformed")))
    ∧ ((deserializeResponse (⟨"http://example.com/v1", 0, [], "secret"⟩ : HttpClient)
        (fun _ => (none : Option Nat)) ⟨3, []⟩
        ⟨"http://example.com/v1/references/r1", 200, "malformed"⟩).1).bytesRead
      = 3 + "malformed".length :=
  deserialization_failure_counts_bytes ⟨"http://example.com/v1", 0, [], "secret"⟩
    (fun _ => none) ⟨3, []⟩ "GET" "http://example.com/v1/references/r1" [] none
    ⟨200, "malformed"⟩ rfl rfl

/-- C3, counterexample: the claim says a request fails iff the status is not
a 2xx success status, but `_checkStatus` compares against
`requests.codes.ok` alone: status 204 is a 2xx success yet the check raises
a `RequestFailedError` for it. -/
theorem nonOk2xx_fails_counterexample :
    (200 ≤ 204 ∧ 204 < 300)
    ∧ checkStatus ⟨"http://example.com/v1/referencesets/1", 204, "body"⟩
        = some (.requestFailed "http://example.com/v1/referencesets/1" 204) := by
  exact ⟨⟨by decide, by decide⟩, rfl⟩

/-- The request `_doRequest` issues is determined by its arguments alone,
whatever the reply: method, url, auth-then-call parameters, a JSON
content-type header exactly when a body is sent, and the body. -/
theorem doRequest_fst {β : Type} (self : HttpClient) (fromJsonString : String → Option β)
    (s : ClientState) (httpMethod url : String) (httpParams : List (String × String))
    (httpData : Option String) (reply : HttpReply) :
    (doRequest self fromJsonString s httpMethod url httpParams httpData reply).1 =
      ⟨httpMethod, url, self.getAuth ++ httpParams,
       if httpData.isSome then [("Content-type", "application/json")] else [], httpData⟩ := by
  by_cases hst : reply.status = codesOk
  · cases hparse : fromJsonString reply.text with
    | none =>
      rw [doRequest_failParse self fromJsonString s httpMethod url httpParams httpData reply
        hst hparse]
    | some b =>
      rw [doRequest_ok self fromJsonString s httpMethod url httpParams httpData reply b
        hst hparse]
  · rw [doRequest_failStatus self fromJsonString s httpMethod url httpParams httpData reply hst]

/-- C1: for a server whose continuation tokens eventually become null or
absent (first terminal page at index `k`, every reply up to it succeeding
and parsing), `runSearchRequest` ends normally and its trace is exactly, for
each page in order, the page's HTTP request followed by all of that page's
list-field elements — so the yielded elements are the concatenation of every
page's designated list field, each element exactly once, in server order,
and all of a page's elements are emitted before the next page's request. -/
theorem runSearchRequest_yields_concatenation
    (α : Type) (ctx : SearchContext α) (pages : Nat → ResponseObject α) (k : Nat)
    (objectName : String) (req : ProtocolRequest) (s : ClientState) (fuel : Nat)
    (hfuel : k < fuel)
    (hst : ∀ i, i ≤ k → (ctx.server i).status = codesOk)
    (hparse : ∀ i, i ≤ k → ctx.fromJsonString (ctx.server i).text = some (pages i))
    (hcont : ∀ i, i < k → continuesPaging (pages i) = true)
    (hterm : continuesPaging (pages k) = false) :
    ∃ s' : ClientState,
      runSearchRequest ctx req objectName fuel s =
        ⟨expectedSearchTrace ctx.client ctx.toJsonString
            (posixJoin ctx.client.urlPrefix (objectName ++ "/search")) pages 0 req k,
         s', .ok⟩
      ∧ yieldsOf (expectedSearchTrace ctx.client ctx.toJsonString
            (posixJoin ctx.client.urlPrefix (objectName ++ "/search")) pages 0 req k)
          = ((List.range (k + 1)).map (fun i => (pages i).listAttr)).flatten := by
  obtain ⟨finalOut, hrun⟩ := runSearchAux_success ctx
    (posixJoin ctx.client.urlPrefix (objectName ++ "/search")) pages k 0 req s fuel hfuel
    (fun i hi => by simpa using hst i hi)
    (fun i hi => by simpa using hparse i hi)
    (fun i hi => by simpa using hcont i hi)
    (by simpa using hterm)
  simp only [Nat.zero_add] at hrun
  refine ⟨⟨s.bytesRead + ((List.range (k + 1)).map
      (fun i => (ctx.server i).text.length)).sum, finalOut⟩, ?_, ?_⟩
  · rw [runSearchRequest]
    exact hrun
  · rw [yieldsOf_expectedSearchTrace]
    simp

/-- C2: under well-behaved transport (every reply has status 200 and
parses), the pagination loop of `runSearchRequest` — and likewise of
`runListRequest` — terminates in finitely many iterations (some fuel bound
suffices) if and only if the server eventually returns a response whose
continuation-token attribute is absent or null. -/
theorem paginationLoop_terminates_iff
    (α : Type) (ctxS : SearchContext α) (ctxL : ListContext α)
    (pagesS pagesL : Nat → ResponseObject α) (objectName url id_ fullUrlL : String)
    (req : ProtocolRequest) (s : ClientState)
    (hstS : ∀ m, (ctxS.server m).status = codesOk)
    (hparseS : ∀ m, ctxS.fromJsonString (ctxS.server m).text = some (pagesS m))
    (hstL : ∀ m, (ctxL.server m).status = codesOk)
    (hparseL : ∀ m, ctxL.fromJsonString (ctxL.server m).text = some (pagesL m))
    (hfmt : pyFormat (posixJoin ctxL.client.urlPrefix url) none (some id_) = some fullUrlL) :
    ((∃ fuel, (runSearchRequest ctxS req objectName fuel s).outcome ≠ .fuelOut)
      ↔ (∃ k, continuesPaging (pagesS k) = false))
    ∧ ((∃ fuel r, runListRequest ctxL req url id_ fuel s = some r ∧ r.outcome ≠ .fuelOut)
      ↔ (∃ k, continuesPaging (pagesL k) = false)) := by
  constructor
  · constructor
    · rintro ⟨fuel, hf⟩
      by_contra hno
      push_neg at hno
      have hall : ∀ k, continuesPaging (pagesS k) = true := by
        intro k
        cases h : continuesPaging (pagesS k) with
        | false => exact absurd h (hno k)
        | true => rfl
      exact hf (runSearchAux_fuelOut ctxS
        (posixJoin ctxS.client.urlPrefix (objectName ++ "/search"))
        pagesS hstS hparseS hall fuel 0 req s)
    · rintro ⟨k, hk⟩
      refine ⟨k + 1, ?_⟩
      rw [runSearchRequest]
      exact runSearchAux_halts ctxS _ pagesS hstS hparseS k 0 req s (k + 1)
        (by omega) (by simpa using hk)
  · constructor
    · rintro ⟨fuel, r, hr, hf⟩
      rw [runListRequest, hfmt] at hr
      have hr2 : r = runListAux ctxL fullUrlL fuel req 0 s := by
        injection hr with h
        exact h.symm
      by_contra hno
      push_neg at hno
      have hall : ∀ k, continuesPaging (pagesL k) = true := by
        intro k
        cases h : continuesPaging (pagesL k) with
        | false => exact absurd h (hno k)
        | true => rfl
      apply hf
      rw [hr2]
      exact runListAux_fuelOut ctxL fullUrlL pagesL hstL hparseL hall fuel 0 req s
    · rintro ⟨k, hk⟩
      refine ⟨k + 1, runListAux ctxL fullUrlL (k + 1) req 0 s, ?_, ?_⟩
      · rw [runListRequest, hfmt]
      · exact runListAux_halts ctxL fullUrlL pagesL hstL hparseL k 0 req s (k + 1)
          (by omega) (by simpa using hk)

/-- C3, amended: an HTTP request fails, raising the `RequestFailedError`
that carries the request url and the status code, if and only if the
response status differs from 200 (`requests.codes.ok`, the only status the
client treats as success — not the whole 2xx class); on such a failure the
pagination run of `runSearchRequest` stops with that error after the failing
request, yielding no element of the failing page or beyond, while the
elements of the pages already consumed are exactly what the trace
yielded. -/
theorem requestFailedError_iff_not_ok :
    (∀ response : HttpResponse,
      (∃ e, checkStatus response = some e) ↔ response.status ≠ codesOk)
    ∧ (∀ (response : HttpResponse) (e : ClientError),
        checkStatus response = some e
          → e = .requestFailed response.url response.status)
    ∧ (∀ (α : Type) (ctx : SearchContext α) (pages : Nat → ResponseObject α)
        (k : Nat) (objectName : String) (req : ProtocolRequest) (s : ClientState)
        (fuel : Nat),
        k < fuel →
        (∀ i, i < k → (ctx.server i).status = codesOk) →
        (∀ i, i < k → ctx.fromJsonString (ctx.server i).text = some (pages i)) →
        (∀ i, i < k → continuesPaging (pages i) = true) →
        (ctx.server k).status ≠ codesOk →
        ∃ finalOut : List String,
          runSearchRequest ctx req objectName fuel s =
            ⟨failSearchTrace ctx.client ctx.toJsonString
                (posixJoin ctx.client.urlPrefix (objectName ++ "/search")) pages 0 req k,
             ⟨s.bytesRead + ((List.range k).map
                (fun i => (ctx.server i).text.length)).sum, finalOut⟩,
             .error (.requestFailed
                (posixJoin ctx.client.urlPrefix (objectName ++ "/search"))
                (ctx.server k).status)⟩
          ∧ yieldsOf (failSearchTrace ctx.client ctx.toJsonString
                (posixJoin ctx.client.urlPrefix (objectName ++ "/search")) pages 0 req k)
              = ((List.range k).map (fun i => (pages i).listAttr)).flatten) := by
  refine ⟨?_, ?_, ?_⟩
  · intro response
    constructor
    · rintro ⟨e, he⟩
      intro h
      rw [checkStatus, if_neg (by simpa using h)] at he
      exact Option.noConfusion he
    · intro h
      exact ⟨_, by rw [checkStatus, if_pos h]⟩
  · intro response e he
    by_cases h : response.status = codesOk
    · rw [checkStatus, if_neg (by simpa using h)] at he
      exact absurd he (Option.noConfusion ·)
    · rw [checkStatus, if_pos h] at he
      exact (Option.some.inj he).symm
  · intro α ctx pages k objectName req s fuel hfuel hst hparse hcont hbad
    obtain ⟨finalOut, hrun⟩ := runSearchAux_failStatus ctx
      (posixJoin ctx.client.urlPrefix (objectName ++ "/search")) pages k 0 req s fuel hfuel
      (fun i hi => by simpa using hst i hi)
      (fun i hi => by simpa using hparse i hi)
      (fun i hi => by simpa using hcont i hi)
      (by simpa using hbad)
    simp only [Nat.zero_add] at hrun
    refine ⟨finalOut, ?_, ?_⟩
    · rw [runSearchRequest]
      exact hrun
    · rw [yieldsOf_failSearchTrace]
      simp

/-- C4: a page whose response object has no `nextPageToken` attribute at all
ends the sequence after that page, and this is behaviorally equivalent to a
page whose attribute is present but null: `_updateNotDone` answers "done"
for both, the two runs produce identical traces ending normally, and in
both cases exactly `k + 1` HTTP requests go out — none after the terminal
page. -/
theorem absent_token_equiv_null_token
    (α : Type) (ctx ctx' : SearchContext α) (pages pages' : Nat → ResponseObject α)
    (k : Nat) (objectName : String) (req : ProtocolRequest) (s s' : ClientState)
    (fuel : Nat)
    (hclient : ctx.client = ctx'.client)
    (hjson : ctx.toJsonString = ctx'.toJsonString)
    (hfuel : k < fuel)
    (hst : ∀ i, i ≤ k → (ctx.server i).status = codesOk)
    (hparse : ∀ i, i ≤ k → ctx.fromJsonString (ctx.server i).text = some (pages i))
    (hst' : ∀ i, i ≤ k → (ctx'.server i).status = codesOk)
    (hparse' : ∀ i, i ≤ k → ctx'.fromJsonString (ctx'.server i).text = some (pages' i))
    (hagree : ∀ i, i < k → pages i = pages' i)
    (hcont : ∀ i, i < k → continuesPaging (pages i) = true)
    (habsent : (pages k).nextPageToken = none)
    (hnull : (pages' k).nextPageToken = some none)
    (hattr : (pages k).listAttr = (pages' k).listAttr) :
    (updateNotDone (pages k) req).2 = false
    ∧ (updateNotDone (pages' k) req).2 = false
    ∧ (runSearchRequest ctx req objectName fuel s).trace
        = (runSearchRequest ctx' req objectName fuel s').trace
    ∧ (runSearchRequest ctx req objectName fuel s).outcome = .ok
    ∧ (runSearchRequest ctx' req objectName fuel s').outcome = .ok
    ∧ requestCount (runSearchRequest ctx req objectName fuel s).trace = k + 1 := by
  have hterm : continuesPaging (pages k) = false := by
    rw [continuesPaging, habsent]
  have hterm' : continuesPaging (pages' k) = false := by
    rw [continuesPaging, hnull]
    rfl
  have hcont' : ∀ i, i < k → continuesPaging (pages' i) = true := by
    intro i hi
    rw [← hagree i hi]
    exact hcont i hi
  obtain ⟨o1, h1⟩ := runSearchAux_success ctx
    (posixJoin ctx.client.urlPrefix (objectName ++ "/search")) pages k 0 req s fuel hfuel
    (fun i hi => by simpa using hst i hi)
    (fun i hi => by simpa using hparse i hi)
    (fun i hi => by simpa using hcont i hi)
    (by simpa using hterm)
  obtain ⟨o2, h2⟩ := runSearchAux_success ctx'
    (posixJoin ctx'.client.urlPrefix (objectName ++ "/search")) pages' k 0 req s' fuel hfuel
    (fun i hi => by simpa using hst' i hi)
    (fun i hi => by simpa using hparse' i hi)
    (fun i hi => by simpa using hcont' i hi)
    (by simpa using hterm')
  have htr : expectedSearchTrace ctx.client ctx.toJsonString
      (posixJoin ctx.client.urlPrefix (objectName ++ "/search")) pages 0 req k
      = expectedSearchTrace ctx'.client ctx'.toJsonString
        (posixJoin ctx'.client.urlPrefix (objectName ++ "/search")) pages' 0 req k := by
    rw [← hclient, ← hjson]
    exact expectedSearchTrace_congr ctx.client ctx.toJsonString
      (posixJoin ctx.client.urlPrefix (objectName ++ "/search")) pages pages' k 0 req
      (fun i hi => by simpa using hagree i hi)
      (by simpa using hattr)
  refine ⟨?_, ?_, ?_, ?_, ?_, ?_⟩
  · rw [updateNotDone, habsent]
  · rw [updateNotDone, hnull]
    rfl
  · rw [runSearchRequest, runSearchRequest, h1, h2]
    exact htr
  · rw [runSearchRequest, h1]
  · rw [runSearchRequest, h2]
  · rw [runSearchRequest, h1]
    exact requestCount_expectedSearchTrace ctx.client ctx.toJsonString
      (posixJoin ctx.client.urlPrefix (objectName ++ "/search")) pages k 0 req

/-- C6: `runGetRequest` issues exactly one HTTP GET (its body holds a single
`doRequest` and no loop) whose url is the configured prefix joined with
`objectName/id`, with no request body, no headers beyond the empty set, and
whose only query parameters are the auth parameters: exactly the single
parameter `key` carrying the configured key when the `google` workaround is
active, and none otherwise.  The side conditions keep `str.format` and
`posixpath.join` in their intended regime: the prefix holds no format
braces and the resource name is non-empty and not absolute. -/
theorem runGetRequest_single_get {β : Type} (self : HttpClient)
    (fromJsonString : String → Option β) (objectName id_ : String) (reply : HttpReply)
    (s : ClientState)
    (hp : ∀ ch ∈ self.urlPrefix.data, ch ≠ '\x7b' ∧ ch ≠ '\x7d')
    (hobj : objectName.data.head? ≠ some '/')
    (hne : objectName.data ≠ []) :
    ∃ (req : HttpRequestRecord) (s' : ClientState) (res : Except ClientError β),
      runGetRequest self fromJsonString objectName id_ reply s = some (req, s', res)
      ∧ req.method = "GET"
      ∧ req.url = posixJoin self.urlPrefix (objectName ++ "/" ++ id_)
      ∧ req.data = none
      ∧ req.headers = []
      ∧ req.params = self.getAuth
      ∧ (self.usingWorkaroundsFor HttpClient.workaroundGoogle = true
          → req.params = [("key", self.key)])
      ∧ (self.usingWorkaroundsFor HttpClient.workaroundGoogle = false
          → req.params = []) := by
  have hurl := posixJoin_format_get self.urlPrefix objectName id_ hp hobj hne
  refine ⟨(doRequest self fromJsonString s "GET"
      (posixJoin self.urlPrefix (objectName ++ "/" ++ id_)) [] none reply).1,
    (doRequest self fromJsonString s "GET"
      (posixJoin self.urlPrefix (objectName ++ "/" ++ id_)) [] none reply).2.1,
    (doRequest self fromJsonString s "GET"
      (posixJoin self.urlPrefix (objectName ++ "/" ++ id_)) [] none reply).2.2,
    ?_, ?_, ?_, ?_, ?_, ?_, ?_, ?_⟩
  · rw [runGetRequest, hurl]
  · rw [doRequest_fst]
  · rw [doRequest_fst]
  · rw [doRequest_fst]
  · rw [doRequest_fst]
    simp
  · rw [doRequest_fst]
    simp
  · intro hw
    rw [doRequest_fst]
    simp [HttpClient.getAuth, hw]
  · intro hw
    rw [doRequest_fst]
    simp [HttpClient.getAuth, hw]

/-- C7: `_deserializeResponse` adds exactly the raw body's length to the
byte counter after every response that passes the status check; no client
operation (search run, list run, single get) ever decreases the counter
read by `getBytesRead`; and across a successful search run the counter
grows by exactly the sum of the lengths of all bodies processed. -/
theorem bytesRead_accounting :
    (∀ (β : Type) (self : HttpClient) (fromJsonString : String → Option β)
        (s : ClientState) (response : HttpResponse),
        getBytesRead (deserializeResponse self fromJsonString s response).1
          = getBytesRead s + response.text.length)
    ∧ (∀ (α : Type) (ctx : SearchContext α) (objectName : String) (fuel : Nat)
        (req : ProtocolRequest) (s : ClientState),
        getBytesRead s ≤ getBytesRead (runSearchRequest ctx req objectName fuel s).state)
    ∧ (∀ (α : Type) (ctx : ListContext α) (url id_ : String) (fuel : Nat)
        (req : ProtocolRequest) (s : ClientState) (r : RunResult (ResponseObject α)),
        runListRequest ctx req url id_ fuel s = some r →
        getBytesRead s ≤ getBytesRead r.state)
    ∧ (∀ (β : Type) (self : HttpClient) (fromJsonString : String → Option β)
        (objectName id_ : String) (reply : HttpReply) (s : ClientState)
        (req : HttpRequestRecord) (s' : ClientState) (res : Except ClientError β),
        runGetRequest self fromJsonString objectName id_ reply s = some (req, s', res) →
        getBytesRead s ≤ getBytesRead s')
    ∧ (∀ (α : Type) (ctx : SearchContext α) (pages : Nat → ResponseObject α) (k : Nat)
        (objectName : String) (req : ProtocolRequest) (s : ClientState) (fuel : Nat),
        k < fuel →
        (∀ i, i ≤ k → (ctx.server i).status = codesOk) →
        (∀ i, i ≤ k → ctx.fromJsonString (ctx.server i).text = some (pages i)) →
        (∀ i, i < k → continuesPaging (pages i) = true) →
        continuesPaging (pages k) = false →
        getBytesRead (runSearchRequest ctx req objectName fuel s).state
          = getBytesRead s + ((List.range (k + 1)).map
              (fun i => (ctx.server i).text.length)).sum) := by
  refine ⟨?_, ?_, ?_, ?_, ?_⟩
  · intro β self fromJsonString s response
    rw [getBytesRead, getBytesRead]
    simp [deserializeResponse, updateBytesRead]
  · intro α ctx objectName fuel req s
    rw [runSearchRequest]
    exact runSearchAux_bytes_mono ctx _ fuel 0 req s
  · intro α ctx url id_ fuel req s r hr
    rw [runListRequest] at hr
    rcases hfmt : pyFormat (posixJoin ctx.client.urlPrefix url) none (some id_) with _ | fullUrl
    · rw [hfmt] at hr
      exact absurd hr (Option.noConfusion ·)
    · rw [hfmt] at hr
      have : r = runListAux ctx fullUrl fuel req 0 s := by
        injection hr with h
        exact h.symm
      rw [this]
      exact runListAux_bytes_mono ctx fullUrl fuel 0 req s
  · intro β self fromJsonString objectName id_ reply s req s' res hr
    rw [runGetRequest] at hr
    rcases hfmt : pyFormat (posixJoin self.urlPrefix "\x7bobjectName\x7d/\x7bid\x7d")
        (some objectName) (some id_) with _ | fullUrl
    · rw [hfmt] at hr
      exact absurd hr (Option.noConfusion ·)
    · rw [hfmt] at hr
      have hmono := doRequest_bytes_mono self fromJsonString s "GET" fullUrl [] none reply
      have heq : (doRequest self fromJsonString s "GET" fullUrl [] none reply).2.1 = s' := by
        injection hr with h
        rw [h]
      rw [heq] at hmono
      exact hmono
  · intro α ctx pages k objectName req s fuel hfuel hst hparse hcont hterm
    obtain ⟨finalOut, hrun⟩ := runSearchAux_success ctx
      (posixJoin ctx.client.urlPrefix (objectName ++ "/search")) pages k 0 req s fuel hfuel
      (fun i hi => by simpa using hst i hi)
      (fun i hi => by simpa using hparse i hi)
      (fun i hi => by simpa using hcont i hi)
      (by simpa using hterm)
    simp only [Nat.zero_add] at hrun
    rw [runSearchRequest, hrun, getBytesRead, getBytesRead]

theorem runSearchRequest_yields_concatenation_witness :
    ∃ s' : ClientState,
      runSearchRequest ctxW reqW "variants" 2 sW =
        ⟨expectedSearchTrace ctxW.client ctxW.toJsonString
            (posixJoin ctxW.client.urlPrefix ("variants" ++ "/search")) pagesW 0 reqW 1,
         s', .ok⟩
      ∧ yieldsOf (expectedSearchTrace ctxW.client ctxW.toJsonString
            (posixJoin ctxW.client.urlPrefix ("variants" ++ "/search")) pagesW 0 reqW 1)
          = ((List.range 2).map (fun i => (pagesW i).listAttr)).flatten :=
  runSearchRequest_yields_concatenation Nat ctxW pagesW 1 "variants" reqW sW 2
    (by omega)
    (fun i _ => rfl)
    (fun i hi =>
      match i, hi with
      | 0, _ => rfl
      | 1, _ => rfl
      | i + 2, h => absurd h (by omega))
    (fun i hi =>
      match i, hi with
      | 0, _ => rfl
      | i + 1, h => absurd h (by omega))
    rfl

theorem paginationLoop_terminates_iff_witness :
    ((∃ fuel, (runSearchRequest ctxW reqW "variants" fuel sW).outcome ≠ .fuelOut)
      ↔ (∃ k, continuesPaging (pagesW k) = false))
    ∧ ((∃ fuel r, runListRequest ctxLW reqW "references/\x7bid\x7d/bases" "r1" fuel sW
          = some r ∧ r.outcome ≠ .fuelOut)
      ↔ (∃ k, continuesPaging (pagesW k) = false)) :=
  paginationLoop_terminates_iff Nat ctxW ctxLW pagesW pagesW "variants"
    "references/\x7bid\x7d/bases" "r1" "http://example.com/v1/references/r1/bases" reqW sW
    (fun m => rfl)
    (fun m =>
      match m with
      | 0 => rfl
      | _ + 1 => rfl)
    (fun m => rfl)
    (fun m =>
      match m with
      | 0 => rfl
      | _ + 1 => rfl)
    rfl

theorem requestFailedError_iff_not_ok_witness :
    ∃ finalOut : List String,
      runSearchRequest ctxFailW reqW "variants" 2 sW =
        ⟨failSearchTrace ctxFailW.client ctxFailW.toJsonString
            (posixJoin ctxFailW.client.urlPrefix ("variants" ++ "/search")) pagesW 0 reqW 1,
         ⟨sW.bytesRead + ((List.range 1).map
            (fun i => (ctxFailW.server i).text.length)).sum, finalOut⟩,
         .error (.requestFailed
            (posixJoin ctxFailW.client.urlPrefix ("variants" ++ "/search"))
            (ctxFailW.server 1).status)⟩
      ∧ yieldsOf (failSearchTrace ctxFailW.client ctxFailW.toJsonString
            (posixJoin ctxFailW.client.urlPrefix ("variants" ++ "/search")) pagesW 0 reqW 1)
          = ((List.range 1).map (fun i => (pagesW i).listAttr)).flatten :=
  requestFailedError_iff_not_ok.2.2 Nat ctxFailW pagesW 1 "variants" reqW sW 2
    (by omega)
    (fun i hi =>
      match i, hi with
      | 0, _ => rfl
      | i + 1, h => absurd h (by omega))
    (fun i hi =>
      match i, hi with
      | 0, _ => rfl
      | i + 1, h => absurd h (by omega))
    (fun i hi =>
      match i, hi with
      | 0, _ => rfl
      | i + 1, h => absurd h (by omega))
    (by decide)

theorem absent_token_equiv_null_token_witness :
    (updateNotDone (pagesWA 1) reqW).2 = false
    ∧ (updateNotDone (pagesW 1) reqW).2 = false
    ∧ (runSearchRequest ctxWA reqW "variants" 2 sW).trace
        = (runSearchRequest ctxW reqW "variants" 2 sW).trace
    ∧ (runSearchRequest ctxWA reqW "variants" 2 sW).outcome = .ok
    ∧ (runSearchRequest ctxW reqW "variants" 2 sW).outcome = .ok
    ∧ requestCount (runSearchRequest ctxWA reqW "variants" 2 sW).trace = 1 + 1 :=
  absent_token_equiv_null_token Nat ctxWA ctxW pagesWA pagesW 1 "variants" reqW sW sW 2
    rfl rfl (by omega)
    (fun i _ => rfl)
    (fun i hi =>
      match i, hi with
      | 0, _ => rfl
      | 1, _ => rfl
      | i + 2, h => absurd h (by omega))
    (fun i _ => rfl)
    (fun i hi =>
      match i, hi with
      | 0, _ => rfl
      | 1, _ => rfl
      | i + 2, h => absurd h (by omega))
    (fun i hi =>
      match i, hi with
      | 0, _ => rfl
      | i + 1, h => absurd h (by omega))
    (fun i hi =>
      match i, hi with
      | 0, _ => rfl
      | i + 1, h => absurd h (by omega))
    rfl rfl rfl

theorem runGetRequest_single_get_witness :
    ∃ (req : HttpRequestRecord) (s' : ClientState)
      (res : Except ClientError (ResponseObject Nat)),
      runGetRequest clientW fromJsonW "referencesets" "rs1" ⟨200, "p0"⟩ sW
        = some (req, s', res)
      ∧ req.method = "GET"
      ∧ req.url = posixJoin clientW.urlPrefix ("referencesets" ++ "/" ++ "rs1")
      ∧ req.data = none
      ∧ req.headers = []
      ∧ req.params = clientW.getAuth
      ∧ (clientW.usingWorkaroundsFor HttpClient.workaroundGoogle = true
          → req.params = [("key", clientW.key)])
      ∧ (clientW.usingWorkaroundsFor HttpClient.workaroundGoogle = false
          → req.params = []) :=
  runGetRequest_single_get clientW fromJsonW "referencesets" "rs1" ⟨200, "p0"⟩ sW
    (by decide) (by decide) (by decide)

theorem bytesRead_accounting_witness :
    getBytesRead (runSearchRequest ctxW reqW "variants" 2 sW).state
      = getBytesRead sW + ((List.range 2).map
          (fun i => (ctxW.server i).text.length)).sum :=
  bytesRead_accounting.2.2.2.2 Nat ctxW pagesW 1 "variants" reqW sW 2
    (by omega)
    (fun i _ => rfl)
    (fun i hi =>
      match i, hi with
      | 0, _ => rfl
      | 1, _ => rfl
      | i + 2, h => absurd h (by omega))
    (fun i hi =>
      match i, hi with
      | 0, _ => rfl
      | i + 1, h => absurd h (by omega))
    rfl
